import Mathlib

/-!
Verification of `src/scripts/reassign-all-services.py` (the guardant
bulk ownership-reassignment tool).

The script is a linear pipeline over a Redis store:

1. resolve the target "nest" (account) id from key
   `nest:email:moon.pl.kr@gmail.com`, stripping surrounding quotes; empty or
   `(nil)` is fatal (exit 1, no writes);
2. pass 1 (source lines 38-75): for each field of hash `scheduler:services`,
   parse the JSON value, set its `nestId` field to the target id, write it
   back (`hset`), counting records whose old `nestId` differed; a
   `json.JSONDecodeError` is caught and the record skipped, any other
   exception (e.g. `.get` on a non-dict) is uncaught and aborts the run;
3. pass 2 (source lines 83-113): re-fetch every record, and for those whose
   `nestId` equals the target id build a derived entry (with defaults for
   missing fields) and collect them into a list;
4. (source lines 116-123) write the derived list as a single JSON array to
   key `nest:<target-id>:services` (`set`, full replacement).

The spec names the `nestId` field `ownerId`, the lookup key
`account-by-email:<email>` and the list key `account:<id>:services`; these
are pure renamings and the embedding keeps the source's names.

Shallow-embedding conventions: JSON values are an inductive `Json`
(numbers as `Int`; the script does no numeric computation on them). A raw
stored string is a `RawValue`: either `malformed s` (on which `json.loads`
raises `JSONDecodeError`) or `parsed j` (on which `json.loads` yields `j`);
`json.dumps j` is modelled as `RawValue.parsed j`, which is faithful because
Python's `json.loads ∘ json.dumps` is the identity on values (dict insertion
order is preserved) and `json.dumps` is deterministic. Python dicts are
association lists with unique keys; `d.get k` is first-occurrence lookup and
`d[k] = v` replaces the first occurrence in place or appends. The two
`date +%s000` subprocess reads are modelled by a single `now : Int`
parameter of the run. Store writes are logged in a `WriteOp` trace.
-/

/-- A JSON value as produced by Python's `json.loads`: numbers are
modelled as integers (the script never computes with them). -/
inductive Json where
  | null : Json
  | bool : Bool → Json
  | num : Int → Json
  | str : String → Json
  | arr : List Json → Json
  | obj : List (String × Json) → Json

mutual

/-- Structural equality test on `Json` (deriving is unavailable for this
nested inductive, so decidable equality is built by hand). -/
def Json.beq : Json → Json → Bool
  | .null, .null => true
  | .bool a, .bool b => a == b
  | .num a, .num b => a == b
  | .str a, .str b => a == b
  | .arr a, .arr b => Json.beqList a b
  | .obj a, .obj b => Json.beqFields a b
  | _, _ => false

/-- Elementwise `Json.beq` on arrays. -/
def Json.beqList : List Json → List Json → Bool
  | [], [] => true
  | x :: xs, y :: ys => Json.beq x y && Json.beqList xs ys
  | _, _ => false

/-- Elementwise `Json.beq` on object field lists. -/
def Json.beqFields : List (String × Json) → List (String × Json) → Bool
  | [], [] => true
  | (k, v) :: xs, (l, w) :: ys => k == l && Json.beq v w && Json.beqFields xs ys
  | _, _ => false

end

mutual

theorem Json.eq_of_beq : ∀ {a b : Json}, Json.beq a b = true → a = b
  | .null, .null, _ => rfl
  | .bool a, .bool b, h => by
    simp only [Json.beq] at h; exact congrArg Json.bool (beq_iff_eq.mp h)
  | .num a, .num b, h => by
    simp only [Json.beq] at h; exact congrArg Json.num (beq_iff_eq.mp h)
  | .str a, .str b, h => by
    simp only [Json.beq] at h; exact congrArg Json.str (beq_iff_eq.mp h)
  | .arr a, .arr b, h => by
    simp only [Json.beq] at h; exact congrArg Json.arr (Json.eqList_of_beq h)
  | .obj a, .obj b, h => by
    simp only [Json.beq] at h; exact congrArg Json.obj (Json.eqFields_of_beq h)

theorem Json.eqList_of_beq : ∀ {a b : List Json}, Json.beqList a b = true → a = b
  | [], [], _ => rfl
  | x :: xs, y :: ys, h => by
    simp only [Json.beqList, Bool.and_eq_true] at h
    rw [Json.eq_of_beq h.1, Json.eqList_of_beq h.2]

theorem Json.eqFields_of_beq :
    ∀ {a b : List (String × Json)}, Json.beqFields a b = true → a = b
  | [], [], _ => rfl
  | (k, v) :: xs, (l, w) :: ys, h => by
    simp only [Json.beqFields, Bool.and_eq_true] at h
    obtain ⟨⟨h1, h2⟩, h3⟩ := h
    have hk : k = l := beq_iff_eq.mp h1
    rw [hk, Json.eq_of_beq h2, Json.eqFields_of_beq h3]

end

mutual

theorem Json.beq_refl : ∀ (a : Json), Json.beq a a = true
  | .null => rfl
  | .bool a => by simp [Json.beq]
  | .num a => by simp [Json.beq]
  | .str a => by simp [Json.beq]
  | .arr a => by simp only [Json.beq]; exact Json.beqList_refl a
  | .obj a => by simp only [Json.beq]; exact Json.beqFields_refl a

theorem Json.beqList_refl : ∀ (a : List Json), Json.beqList a a = true
  | [] => rfl
  | x :: xs => by
    simp only [Json.beqList, Bool.and_eq_true]
    exact ⟨Json.beq_refl x, Json.beqList_refl xs⟩

theorem Json.beqFields_refl : ∀ (a : List (String × Json)), Json.beqFields a a = true
  | [] => rfl
  | (k, v) :: xs => by
    simp only [Json.beqFields, Bool.and_eq_true]
    exact ⟨⟨by simp, Json.beq_refl v⟩, Json.beqFields_refl xs⟩

end

instance : DecidableEq Json := fun a b =>
  if h : Json.beq a b = true then .isTrue (Json.eq_of_beq h)
  else .isFalse (fun he => h (he ▸ Json.beq_refl a))

/-- A raw string stored in Redis, abstracted by how `json.loads` treats it:
`malformed s` raises `JSONDecodeError`, `parsed j` yields the value `j`. -/
inductive RawValue where
  | malformed : String → RawValue
  | parsed : Json → RawValue
deriving DecidableEq

/-- `json.loads`, on the abstraction: `none` models a raised
`json.JSONDecodeError`. -/
def parseJson : RawValue → Option Json
  | .malformed _ => none
  | .parsed j => some j

/-- First-occurrence lookup in an association list: Python's `d.get(k)`
(`None` ↦ `none`); also Redis `hget`/`get` on the modelled store. -/
def assocGet {α : Type} (l : List (String × α)) (k : String) : Option α :=
  match l with
  | [] => none
  | (k', v) :: rest => if k' = k then some v else assocGet rest k

/-- Python's `d.get(k, default)`. -/
def assocGetD {α : Type} (l : List (String × α)) (k : String) (d : α) : α :=
  (assocGet l k).getD d

/-- Update-or-append on an association list: Python's `d[k] = v` (replace
first occurrence in place, else append); also Redis `hset`/`set`. -/
def assocSet {α : Type} (l : List (String × α)) (k : String) (v : α) :
    List (String × α) :=
  match l with
  | [] => [(k, v)]
  | (k', v') :: rest =>
    if k' = k then (k, v) :: rest else (k', v') :: assocSet rest k v

/-- The modelled Redis store: the raw (whitespace-stripped) reply of
`get nest:email:moon.pl.kr@gmail.com`, the `scheduler:services` hash
(field order = `hkeys` order), and the remaining plain string keys
(in particular `nest:<id>:services`). -/
structure Store where
  nestEmailRaw : String
  services : List (String × RawValue)
  strings : List (String × RawValue)
deriving DecidableEq

/-- One store write performed by the tool: an `hset` on
`scheduler:services` (source lines 58-64) or a `set` of a plain key
(source lines 117-123). -/
inductive WriteOp where
  | hsetServices : String → RawValue → WriteOp
  | setKey : String → RawValue → WriteOp
deriving DecidableEq

/-- How the process ends: `success` = fell through to the end (exit 0),
`notFound` = `sys.exit(1)` at source line 25, `crashed` = an uncaught
exception (e.g. `AttributeError` from `.get` on a non-dict). -/
inductive ExitStatus where
  | success : ExitStatus
  | notFound : ExitStatus
  | crashed : ExitStatus
deriving DecidableEq

/-- Process exit code: 0 on success; 1 both for the explicit
`sys.exit(1)` and for a Python-uncaught exception. -/
def exitCode : ExitStatus → Nat
  | .success => 0
  | .notFound => 1
  | .crashed => 1

/-- Everything observable about one run: how it exited, the final store,
the reported reassigned count, and the ordered trace of store writes. -/
structure Outcome where
  exit : ExitStatus
  store : Store
  reassignedCount : Nat
  writes : List WriteOp
deriving DecidableEq

/-- Python's `str.strip('"')`: remove leading and trailing runs of `"`
(source line 21). -/
def stripQuotes (s : String) : String :=
  String.mk (((s.toList.dropWhile (· = '"')).reverse.dropWhile (· = '"')).reverse)

/-- Source lines 21-25: strip quotes from the raw lookup reply and treat an
empty string or the literal `(nil)` as "nest not found". -/
def resolveNest (raw : String) : Option String :=
  let m := stripQuotes raw
  if m = "" ∨ m = "(nil)" then none else some m

/-- Intermediate state of the reassignment pass: current hash contents,
reassigned count so far, write log so far, and whether the pass is still
alive (`ok = false` once an uncaught exception has been raised). -/
structure Pass1State where
  services : List (String × RawValue)
  count : Nat
  log : List WriteOp
  ok : Bool
deriving DecidableEq

/-- Pass 1, source lines 38-75: for each service id in turn, `hget` the
record; on `JSONDecodeError` skip it; on a JSON object, set `nestId` to
`moonId`, `hset` the re-serialized object back, and bump the count when the
old `nestId` differed; on a parsed non-object the `.get` call at source
line 47 raises an uncaught `AttributeError` (modelled as `ok := false`). -/
def pass1Go (moonId : String) :
    List String → List (String × RawValue) → Nat → List WriteOp → Pass1State
  | [], h, c, l => ⟨h, c, l, true⟩
  | sid :: rest, h, c, l =>
    match assocGet h sid with
    | none => pass1Go moonId rest h c l
    | some raw =>
      match parseJson raw with
      | none => pass1Go moonId rest h c l
      | some (.obj fields) =>
        let newRaw := RawValue.parsed (.obj (assocSet fields "nestId" (.str moonId)))
        pass1Go moonId rest (assocSet h sid newRaw)
          (if assocGet fields "nestId" = some (.str moonId) then c else c + 1)
          (l ++ [.hsetServices sid newRaw])
      | some _ => ⟨h, c, l, false⟩

/-- The default `monitoring` object supplied at source lines 103-108. -/
def defaultMonitoring : Json :=
  .obj [("regions", .arr [.str "eu-central-1", .str "eu-west-1", .str "us-east-1"]),
        ("strategy", .str "round-robin"),
        ("minRegions", .num 1),
        ("maxRegions", .num 3)]

/-- The derived cached-list entry built at source lines 92-109, in field
order. `createdAt` defaults to the current clock and `updatedAt` always
reads it; both `date +%s000` reads are modelled by the single `now`. -/
def deriveFields (sid moonId : String) (now : Int)
    (fields : List (String × Json)) : List (String × Json) :=
  [("id", .str sid),
   ("nestId", .str moonId),
   ("name", assocGetD fields "name" (.str "")),
   ("type", assocGetD fields "type" (.str "")),
   ("target", assocGetD fields "target" (.str "")),
   ("interval", assocGetD fields "interval" (.num 60)),
   ("isActive", assocGetD fields "enabled" (.bool true)),
   ("createdAt", assocGetD fields "createdAt" (.num now)),
   ("updatedAt", .num now),
   ("lastCheck", assocGetD fields "lastCheck" .null),
   ("monitoring", assocGetD fields "monitoring" defaultMonitoring)]

/-- The derived entry as a JSON object. -/
def deriveEntry (sid moonId : String) (now : Int)
    (fields : List (String × Json)) : Json :=
  .obj (deriveFields sid moonId now fields)

/-- Pass 2, source lines 85-113: re-fetch each record; on `JSONDecodeError`
silently skip; on a JSON object whose `nestId` equals `moonId`, append the
derived entry; on a parsed non-object the `.get` at source line 90 raises an
uncaught `AttributeError` (`none`). -/
def pass2Go (moonId : String) (now : Int) :
    List String → List (String × RawValue) → Option (List Json)
  | [], _ => some []
  | sid :: rest, h =>
    match assocGet h sid with
    | none => pass2Go moonId now rest h
    | some raw =>
      match parseJson raw with
      | none => pass2Go moonId now rest h
      | some (.obj fields) =>
        if assocGet fields "nestId" = some (.str moonId) then
          (pass2Go moonId now rest h).map
            (fun es => deriveEntry sid moonId now fields :: es)
        else pass2Go moonId now rest h
      | some _ => none

/-- The whole run of `main` (source lines 16-128): resolve the nest id
(exit 1 and no writes when it is missing), enumerate the service ids once,
run pass 1, run pass 2 on the updated hash, and `set` the derived list as
one JSON array under `nest:<moonId>:services`. -/
def runTool (now : Int) (st : Store) : Outcome :=
  match resolveNest st.nestEmailRaw with
  | none => ⟨.notFound, st, 0, []⟩
  | some moonId =>
    let ids := st.services.map Prod.fst
    let p1 := pass1Go moonId ids st.services 0 []
    if p1.ok then
      match pass2Go moonId now ids p1.services with
      | none => ⟨.crashed, { st with services := p1.services }, p1.count, p1.log⟩
      | some entries =>
        let listKey := "nest:" ++ moonId ++ ":services"
        let listVal := RawValue.parsed (.arr entries)
        ⟨.success,
         { st with services := p1.services,
                   strings := assocSet st.strings listKey listVal },
         p1.count, p1.log ++ [.setKey listKey listVal]⟩
    else ⟨.crashed, { st with services := p1.services }, p1.count, p1.log⟩

/-- What pass 1 does to one raw record value: a parsed JSON object gets its
`nestId` set to `moonId` and is re-serialized; anything else (malformed, or
the crash case) is left as stored. -/
def reassignRaw (moonId : String) (raw : RawValue) : RawValue :=
  match parseJson raw with
  | some (.obj fields) => .parsed (.obj (assocSet fields "nestId" (.str moonId)))
  | _ => raw

/-- A raw value that parses as a JSON object (the only case pass 1 writes
back). -/
def parsesToObj (raw : RawValue) : Bool :=
  match parseJson raw with
  | some (.obj _) => true
  | _ => false

/-- A raw value that parses as JSON but not as an object: the case on which
the script's `.get` calls raise an uncaught `AttributeError`. -/
def badRaw (raw : RawValue) : Bool :=
  match parseJson raw with
  | some (.obj _) => false
  | some _ => true
  | none => false

/-- No record of the hash is in the crash-provoking shape. -/
def noBadRecords (h : List (String × RawValue)) : Bool :=
  h.all (fun p => !badRaw p.2)

/-- A record pass 1 counts as actually reassigned: it parses as an object
whose old `nestId` differs from the target (source lines 70-71; a missing
or non-string `nestId` also differs, as in Python `None != str`). -/
def changedRaw (moonId : String) (raw : RawValue) : Bool :=
  match parseJson raw with
  | some (.obj fields) =>
    if assocGet fields "nestId" = some (.str moonId) then false else true
  | _ => false

/-- A record pass 2 includes in the cached list: it parses as an object
whose `nestId` equals the target (source line 90). -/
def qualifies (moonId : String) (raw : RawValue) : Bool :=
  match parseJson raw with
  | some (.obj fields) =>
    if assocGet fields "nestId" = some (.str moonId) then true else false
  | _ => false

/-- The list pass 2 builds from a hash: one derived entry per record that
parses as an object owned by `moonId`, in hash order. -/
def cachedEntries (moonId : String) (now : Int)
    (h : List (String × RawValue)) : List Json :=
  h.filterMap (fun p =>
    match parseJson p.2 with
    | some (.obj fields) =>
      if assocGet fields "nestId" = some (.str moonId) then
        some (deriveEntry p.1 moonId now fields)
      else none
    | _ => none)

/-- The `hset` trace pass 1 leaves on a hash: one write per record that
parses as an object, in hash order. -/
def hsetLog (moonId : String) (h : List (String × RawValue)) : List WriteOp :=
  h.filterMap (fun p =>
    if parsesToObj p.2 then
      some (.hsetServices p.1 (reassignRaw moonId p.2))
    else none)

/-- The `id` field of a derived cached-list entry. -/
def entryIdOf : Json → Option Json
  | .obj f => assocGet f "id"
  | _ => none

/-- The `nestId` (owner) field of a derived cached-list entry. -/
def entryOwnerOf : Json → Option Json
  | .obj f => assocGet f "nestId"
  | _ => none

/-- Recognizes an `hset scheduler:services <sid> ...` write. -/
def isHsetFor (sid : String) : WriteOp → Bool
  | .hsetServices f _ => f = sid
  | .setKey _ _ => false

/-- Recognizes a plain `set` write (the cached-list write). -/
def isSetKeyWrite : WriteOp → Bool
  | .hsetServices _ _ => false
  | .setKey _ _ => true

/-- The updated services hash a successful run leaves behind. -/
def finalServices (moonId : String) (h : List (String × RawValue)) :
    List (String × RawValue) :=
  h.map (fun p => (p.1, reassignRaw moonId p.2))

/-- The key the cached list is written to (source line 118). -/
def servicesListKey (moonId : String) : String :=
  "nest:" ++ moonId ++ ":services"

/-- The two labels interpolated into the progress line at source line 47:
`service_data.get('name', 'Unknown')` and
`service_data.get('type', 'Unknown')` (display only; the derived
cached-list entry uses different defaults at source lines 95-96). -/
def processingLabel (fields : List (String × Json)) : Json × Json :=
  (assocGetD fields "name" (.str "Unknown"),
   assocGetD fields "type" (.str "Unknown"))

/-- Length of the JSON array stored under a plain string key, when the key
holds a parsed array. -/
def cachedListLength (st : Store) (key : String) : Option Nat :=
  match assocGet st.strings key with
  | some (.parsed (.arr es)) => some es.length
  | _ => none

/-- The two-record scenario of the spec: `svc-a` owned by `acct-old`,
`svc-b` already owned by `acct-target`. -/
def scenarioStore : Store :=
  ⟨"\"acct-target\"",
   [("svc-a", .parsed (.obj [("nestId", .str "acct-old")])),
    ("svc-b", .parsed (.obj [("nestId", .str "acct-target")]))],
   []⟩

/-- A one-record store whose value parses as a JSON array, not an object. -/
def badRecordStore : Store :=
  ⟨"\"m\"", [("a", .parsed (.arr [.num 1]))], []⟩

/-- A one-record store with a single owned service, used to exercise runs. -/
def oneRecordStore : Store :=
  ⟨"\"m\"", [("svc", .parsed (.obj [("nestId", .str "old")]))], []⟩

/-- A store on which the nest-email lookup comes back as the `(nil)`
sentinel. -/
def nilLookupStore : Store :=
  ⟨"(nil)", [("svc", .malformed "oops")], [("k", .malformed "old")]⟩

/-- A two-record store with one malformed record and one well-formed one. -/
def mixedStore : Store :=
  ⟨"\"m\"",
   [("bad", .malformed "not json"),
    ("good", .parsed (.obj [("nestId", .str "x"), ("name", .str "G")]))],
   []⟩

@[simp]
theorem assocGet_nil {α : Type} (k : String) :
    assocGet ([] : List (String × α)) k = none := rfl

@[simp]
theorem assocGet_cons {α : Type} (k' : String) (v : α) (rest : List (String × α))
    (k : String) :
    assocGet ((k', v) :: rest) k =
      if k' = k then some v else assocGet rest k := rfl

@[simp]
theorem assocSet_cons {α : Type} (k' : String) (v' : α) (rest : List (String × α))
    (k : String) (v : α) :
    assocSet ((k', v') :: rest) k v =
      if k' = k then (k, v) :: rest else (k', v') :: assocSet rest k v := rfl

theorem assocGet_assocSet_self {α : Type} (l : List (String × α)) (k : String) (v : α) :
    assocGet (assocSet l k v) k = some v := by
  induction l with
  | nil => simp [assocSet]
  | cons p rest ih =>
    obtain ⟨k', v'⟩ := p
    by_cases hk : k' = k <;> simp [hk, ih]

theorem assocGet_assocSet_ne {α : Type} (l : List (String × α)) (k k' : String)
    (v : α) (hne : k' ≠ k) :
    assocGet (assocSet l k v) k' = assocGet l k' := by
  induction l with
  | nil =>
    have hnk : ¬(k = k') := fun h => hne h.symm
    simp [assocSet, hnk]
  | cons p rest ih =>
    obtain ⟨k₀, v₀⟩ := p
    by_cases h0 : k₀ = k
    · subst h0
      have hnk : ¬(k₀ = k') := fun h => hne (h ▸ rfl)
      simp [hnk]
    · by_cases h1 : k₀ = k' <;> simp [h0, h1, ih, hne]

theorem assocSet_eq_self {α : Type} (l : List (String × α)) (k : String) (v : α)
    (h : assocGet l k = some v) : assocSet l k v = l := by
  induction l with
  | nil => simp [assocGet] at h
  | cons p rest ih =>
    obtain ⟨k₀, v₀⟩ := p
    by_cases h0 : k₀ = k
    · subst h0
      simp only [assocGet_cons, if_pos rfl] at h
      simp_all
    · simp only [assocGet_cons, if_neg h0] at h
      simp [h0, ih h]

theorem mem_keys_of_assocGet {α : Type} (l : List (String × α)) (k : String) (v : α)
    (h : assocGet l k = some v) : k ∈ l.map Prod.fst := by
  induction l with
  | nil => simp [assocGet] at h
  | cons p rest ih =>
    obtain ⟨k₀, v₀⟩ := p
    by_cases h0 : k₀ = k
    · simp [h0]
    · simp only [assocGet_cons, if_neg h0] at h
      simp [ih h]

theorem assocGet_of_mem_nodup {α : Type} (l : List (String × α)) (k : String) (v : α)
    (hnd : (l.map Prod.fst).Nodup) (hmem : (k, v) ∈ l) :
    assocGet l k = some v := by
  induction l with
  | nil => simp at hmem
  | cons p rest ih =>
    obtain ⟨k₀, v₀⟩ := p
    simp only [List.map_cons, List.nodup_cons] at hnd
    rcases List.mem_cons.mp hmem with heq | hrest
    · obtain ⟨hk, hv⟩ := Prod.mk.injEq .. ▸ heq
      simp_all
    · have hk0 : k₀ ≠ k := by
        intro he
        exact hnd.1 (he ▸ List.mem_map.mpr ⟨(k, v), hrest, rfl⟩)
      simp [hk0, ih hnd.2 hrest]

theorem mem_of_assocGet {α : Type} (l : List (String × α)) (k : String) (v : α)
    (h : assocGet l k = some v) : (k, v) ∈ l := by
  induction l with
  | nil => simp [assocGet] at h
  | cons p rest ih =>
    obtain ⟨k₀, v₀⟩ := p
    by_cases h0 : k₀ = k
    · subst h0
      simp only [assocGet_cons, if_pos rfl] at h
      simp_all
    · simp only [assocGet_cons, if_neg h0] at h
      exact List.mem_cons_of_mem _ (ih h)

theorem assocGet_map_value {α β : Type} (f : String → α → β)
    (l : List (String × α)) (k : String) :
    assocGet (l.map (fun p => (p.1, f p.1 p.2))) k =
      (assocGet l k).map (f k) := by
  induction l with
  | nil => simp [assocGet]
  | cons p rest ih =>
    obtain ⟨k₀, v₀⟩ := p
    by_cases h0 : k₀ = k
    · subst h0; simp
    · simp [h0, ih]

theorem pass1_frame (moonId sid : String) (r : RawValue) :
    ∀ (ids : List String) (h : List (String × RawValue)) (c : Nat) (l : List WriteOp),
      sid ∉ ids →
      pass1Go moonId ids ((sid, r) :: h) c l =
        ⟨(sid, r) :: (pass1Go moonId ids h c l).services,
         (pass1Go moonId ids h c l).count,
         (pass1Go moonId ids h c l).log,
         (pass1Go moonId ids h c l).ok⟩ := by
  intro ids
  induction ids with
  | nil => intro h c l _; rfl
  | cons a rest ih =>
    intro h c l hnotin
    have hna : ¬(sid = a) := fun he => hnotin (he ▸ List.mem_cons_self a rest)
    have hrest : sid ∉ rest := fun hm => hnotin (List.mem_cons_of_mem a hm)
    cases hga : assocGet h a with
    | none =>
      simp only [pass1Go, assocGet_cons, if_neg hna, hga]
      exact ih h c l hrest
    | some raw =>
      cases hpj : parseJson raw with
      | none =>
        simp only [pass1Go, assocGet_cons, if_neg hna, hga, hpj]
        exact ih h c l hrest
      | some j =>
        cases j with
        | obj fields =>
          simp only [pass1Go, assocGet_cons, if_neg hna, hga, hpj, assocSet_cons]
          exact ih _ _ _ hrest
        | null => simp [pass1Go, assocGet_cons, if_neg hna, hga, hpj]
        | bool b => simp [pass1Go, assocGet_cons, if_neg hna, hga, hpj]
        | num n => simp [pass1Go, assocGet_cons, if_neg hna, hga, hpj]
        | str s => simp [pass1Go, assocGet_cons, if_neg hna, hga, hpj]
        | arr xs => simp [pass1Go, assocGet_cons, if_neg hna, hga, hpj]

theorem pass1_spec (moonId : String) :
    ∀ (h : List (String × RawValue)) (c : Nat) (l : List WriteOp),
      (h.map Prod.fst).Nodup → noBadRecords h = true →
      pass1Go moonId (h.map Prod.fst) h c l =
        ⟨h.map (fun p => (p.1, reassignRaw moonId p.2)),
         c + (h.countP (fun p => changedRaw moonId p.2)),
         l ++ hsetLog moonId h, true⟩ := by
  intro h
  induction h with
  | nil => intro c l _ _; simp [pass1Go, hsetLog]
  | cons p t ih =>
    obtain ⟨sid, raw⟩ := p
    intro c l hnd hnb
    simp only [List.map_cons, List.nodup_cons] at hnd
    simp only [noBadRecords, List.all_cons, Bool.and_eq_true, Bool.not_eq_true'] at hnb
    have hnbt : noBadRecords t = true := hnb.2
    cases hpj : parseJson raw with
    | none =>
      have hre : reassignRaw moonId raw = raw := by
        simp [reassignRaw, hpj]
      have hch : changedRaw moonId raw = false := by
        simp [changedRaw, hpj]
      have hpo : parsesToObj raw = false := by
        simp [parsesToObj, hpj]
      simp only [pass1Go, assocGet_cons, eq_self_iff_true, if_true, hpj]
      rw [pass1_frame moonId sid raw (t.map Prod.fst) t c l hnd.1,
          ih c l hnd.2 hnbt]
      simp only [List.map_cons, List.countP_cons, Pass1State.mk.injEq]
      refine ⟨by rw [hre], by rw [hch]; simp, ?_, trivial⟩
      simp [hsetLog, hpo]
    | some j =>
      cases j with
      | obj fields =>
        have hre : reassignRaw moonId raw =
            RawValue.parsed (.obj (assocSet fields "nestId" (.str moonId))) := by
          simp [reassignRaw, hpj]
        have hch : changedRaw moonId raw =
            (if assocGet fields "nestId" = some (.str moonId) then false else true) := by
          simp [changedRaw, hpj]
        have hpo : parsesToObj raw = true := by
          simp [parsesToObj, hpj]
        simp only [pass1Go, assocGet_cons, eq_self_iff_true, if_true, hpj,
          assocSet_cons]
        rw [pass1_frame moonId sid _ (t.map Prod.fst) t _ _ hnd.1,
            ih _ _ hnd.2 hnbt]
        simp only [List.map_cons, List.countP_cons, Pass1State.mk.injEq]
        refine ⟨by rw [hre], ?_, ?_, trivial⟩
        · rw [hch]
          by_cases hq : assocGet fields "nestId" = some (Json.str moonId)
          · simp [hq]
          · simp [hq]
            omega
        · simp only [hsetLog, List.filterMap_cons, hpo, if_pos rfl, hre]
          simp [List.append_assoc, hsetLog]
      | null => simp [badRaw, hpj] at hnb
      | bool b => simp [badRaw, hpj] at hnb
      | num n => simp [badRaw, hpj] at hnb
      | str s => simp [badRaw, hpj] at hnb
      | arr xs => simp [badRaw, hpj] at hnb

theorem pass1_crash (moonId sid : String) :
    ∀ (ids : List String) (h : List (String × RawValue)) (c : Nat) (l : List WriteOp),
      sid ∈ ids →
      (∃ raw, assocGet h sid = some raw ∧ badRaw raw = true) →
      (pass1Go moonId ids h c l).ok = false := by
  intro ids
  induction ids with
  | nil => intro h c l hmem _; simp at hmem
  | cons a rest ih =>
    intro h c l hmem hbad
    obtain ⟨raw, hget, hbr⟩ := hbad
    by_cases has : a = sid
    · subst has
      cases hpj : parseJson raw with
      | none => simp [badRaw, hpj] at hbr
      | some j =>
        cases j with
        | obj fields => simp [badRaw, hpj] at hbr
        | null => simp [pass1Go, hget, hpj]
        | bool b => simp [pass1Go, hget, hpj]
        | num n => simp [pass1Go, hget, hpj]
        | str s => simp [pass1Go, hget, hpj]
        | arr xs => simp [pass1Go, hget, hpj]
    · have hmem' : sid ∈ rest := by
        rcases List.mem_cons.mp hmem with he | hr
        · exact absurd he.symm has
        · exact hr
      cases hga : assocGet h a with
      | none =>
        simp only [pass1Go, hga]
        exact ih h c l hmem' ⟨raw, hget, hbr⟩
      | some raw' =>
        cases hpj : parseJson raw' with
        | none =>
          simp only [pass1Go, hga, hpj]
          exact ih h c l hmem' ⟨raw, hget, hbr⟩
        | some j =>
          cases j with
          | obj fields =>
            simp only [pass1Go, hga, hpj]
            refine ih _ _ _ hmem' ⟨raw, ?_, hbr⟩
            rw [assocGet_assocSet_ne h a sid _ (fun he => has he.symm)]
            exact hget
          | null => simp [pass1Go, hga, hpj]
          | bool b => simp [pass1Go, hga, hpj]
          | num n => simp [pass1Go, hga, hpj]
          | str s => simp [pass1Go, hga, hpj]
          | arr xs => simp [pass1Go, hga, hpj]

theorem pass1_log_mem (moonId : String) :
    ∀ (ids : List String) (h : List (String × RawValue)) (c : Nat) (l : List WriteOp),
      ∀ w ∈ (pass1Go moonId ids h c l).log,
        w ∈ l ∨ isSetKeyWrite w = false := by
  intro ids
  induction ids with
  | nil => intro h c l w hw; exact Or.inl hw
  | cons a rest ih =>
    intro h c l w hw
    revert hw
    cases hga : assocGet h a with
    | none =>
      simp only [pass1Go, hga]
      exact ih h c l w
    | some raw =>
      cases hpj : parseJson raw with
      | none =>
        simp only [pass1Go, hga, hpj]
        exact ih h c l w
      | some j =>
        cases j with
        | obj fields =>
          simp only [pass1Go, hga, hpj]
          intro hw
          rcases ih _ _ _ w hw with hin | hns
          · rcases List.mem_append.mp hin with h1 | h2
            · exact Or.inl h1
            · simp only [List.mem_singleton] at h2
              subst h2
              exact Or.inr rfl
          · exact Or.inr hns
        | null => simp only [pass1Go, hga, hpj]; exact fun hw => Or.inl hw
        | bool b => simp only [pass1Go, hga, hpj]; exact fun hw => Or.inl hw
        | num n => simp only [pass1Go, hga, hpj]; exact fun hw => Or.inl hw
        | str s => simp only [pass1Go, hga, hpj]; exact fun hw => Or.inl hw
        | arr xs => simp only [pass1Go, hga, hpj]; exact fun hw => Or.inl hw

theorem pass2_frame (moonId : String) (now : Int) (sid : String) (r : RawValue) :
    ∀ (ids : List String) (h : List (String × RawValue)),
      sid ∉ ids →
      pass2Go moonId now ids ((sid, r) :: h) = pass2Go moonId now ids h := by
  intro ids
  induction ids with
  | nil => intro h _; rfl
  | cons a rest ih =>
    intro h hnotin
    have hna : ¬(sid = a) := fun he => hnotin (he ▸ List.mem_cons_self a rest)
    have hrest : sid ∉ rest := fun hm => hnotin (List.mem_cons_of_mem a hm)
    cases hga : assocGet h a with
    | none =>
      simp only [pass2Go, assocGet_cons, if_neg hna, hga]
      exact ih h hrest
    | some raw =>
      cases hpj : parseJson raw with
      | none =>
        simp only [pass2Go, assocGet_cons, if_neg hna, hga, hpj]
        exact ih h hrest
      | some j =>
        cases j with
        | obj fields =>
          simp only [pass2Go, assocGet_cons, if_neg hna, hga, hpj]
          rw [ih h hrest]
        | null => simp [pass2Go, assocGet_cons, if_neg hna, hga, hpj]
        | bool b => simp [pass2Go, assocGet_cons, if_neg hna, hga, hpj]
        | num n => simp [pass2Go, assocGet_cons, if_neg hna, hga, hpj]
        | str s => simp [pass2Go, assocGet_cons, if_neg hna, hga, hpj]
        | arr xs => simp [pass2Go, assocGet_cons, if_neg hna, hga, hpj]

theorem pass2_spec (moonId : String) (now : Int) :
    ∀ (h : List (String × RawValue)),
      (h.map Prod.fst).Nodup → noBadRecords h = true →
      pass2Go moonId now (h.map Prod.fst) h =
        some (cachedEntries moonId now h) := by
  intro h
  induction h with
  | nil => intro _ _; simp [pass2Go, cachedEntries]
  | cons p t ih =>
    obtain ⟨sid, raw⟩ := p
    intro hnd hnb
    simp only [List.map_cons, List.nodup_cons] at hnd
    simp only [noBadRecords, List.all_cons, Bool.and_eq_true, Bool.not_eq_true'] at hnb
    have hnbt : noBadRecords t = true := hnb.2
    cases hpj : parseJson raw with
    | none =>
      simp only [pass2Go, assocGet_cons, eq_self_iff_true, if_true, hpj]
      rw [pass2_frame moonId now sid raw (t.map Prod.fst) t hnd.1, ih hnd.2 hnbt]
      simp [cachedEntries, List.filterMap_cons, hpj]
    | some j =>
      cases j with
      | obj fields =>
        simp only [pass2Go, assocGet_cons, eq_self_iff_true, if_true, hpj]
        rw [pass2_frame moonId now sid raw (t.map Prod.fst) t hnd.1, ih hnd.2 hnbt]
        by_cases hq : assocGet fields "nestId" = some (Json.str moonId)
        · simp [cachedEntries, List.filterMap_cons, hpj, hq]
        · simp [cachedEntries, List.filterMap_cons, hpj, hq]
      | null => simp [badRaw, hpj] at hnb
      | bool b => simp [badRaw, hpj] at hnb
      | num n => simp [badRaw, hpj] at hnb
      | str s => simp [badRaw, hpj] at hnb
      | arr xs => simp [badRaw, hpj] at hnb

theorem map_fst_reassign (moonId : String) (h : List (String × RawValue)) :
    (h.map (fun p => (p.1, reassignRaw moonId p.2))).map Prod.fst =
      h.map Prod.fst := by
  induction h with
  | nil => rfl
  | cons p t ih => simp [ih]

theorem map_fst_finalServices (moonId : String) (h : List (String × RawValue)) :
    (finalServices moonId h).map Prod.fst = h.map Prod.fst :=
  map_fst_reassign moonId h

theorem noBad_reassignRaw (moonId : String) (raw : RawValue)
    (h : badRaw raw = false) : badRaw (reassignRaw moonId raw) = false := by
  cases hpj : parseJson raw with
  | none =>
    cases raw with
    | malformed s => simp [reassignRaw, badRaw, parseJson]
    | parsed j => simp [parseJson] at hpj
  | some j =>
    cases j with
    | obj fields =>
      cases raw with
      | malformed s => simp [parseJson] at hpj
      | parsed j' =>
        simp only [parseJson, Option.some.injEq] at hpj
        subst hpj
        simp [reassignRaw, badRaw, parseJson]
    | null => simp [badRaw, hpj] at h
    | bool b => simp [badRaw, hpj] at h
    | num n => simp [badRaw, hpj] at h
    | str s => simp [badRaw, hpj] at h
    | arr xs => simp [badRaw, hpj] at h

theorem noBad_reassign (moonId : String) (h : List (String × RawValue))
    (hnb : noBadRecords h = true) :
    noBadRecords (h.map (fun p => (p.1, reassignRaw moonId p.2))) = true := by
  simp only [noBadRecords, List.all_eq_true, Bool.not_eq_true'] at *
  intro p hp
  obtain ⟨q, hq, hqe⟩ := List.mem_map.mp hp
  subst hqe
  exact noBad_reassignRaw moonId q.2 (hnb q hq)

theorem reassignRaw_stable (moonId : String) (raw : RawValue) :
    reassignRaw moonId (reassignRaw moonId raw) = reassignRaw moonId raw := by
  cases raw with
  | malformed s => rfl
  | parsed j =>
    cases j with
    | obj fields =>
      simp only [reassignRaw, parseJson]
      rw [assocSet_eq_self _ _ _ (assocGet_assocSet_self fields "nestId" (.str moonId))]
    | null => rfl
    | bool b => rfl
    | num n => rfl
    | str s => rfl
    | arr xs => rfl

/-- Full characterization of a run in the benign case: the nest id
resolves, the hash keys are distinct (as `hkeys` guarantees on a real
store) and no stored value parses as non-object JSON. The run succeeds;
pass 1 maps `reassignRaw` over the hash and logs one `hset` per record
that parses; the reported count is the number of parsed records whose
old `nestId` differed; the derived list for the updated hash is written
(as a full replacement) under `nest:<moonId>:services`. -/
theorem runTool_spec (now : Int) (st : Store) (moonId : String)
    (hres : resolveNest st.nestEmailRaw = some moonId)
    (hnd : (st.services.map Prod.fst).Nodup)
    (hnb : noBadRecords st.services = true) :
    runTool now st =
      ⟨.success,
       ⟨st.nestEmailRaw,
        finalServices moonId st.services,
        assocSet st.strings (servicesListKey moonId)
          (RawValue.parsed (.arr (cachedEntries moonId now
            (finalServices moonId st.services))))⟩,
       st.services.countP (fun p => changedRaw moonId p.2),
       hsetLog moonId st.services ++
         [.setKey (servicesListKey moonId)
           (RawValue.parsed (.arr (cachedEntries moonId now
             (finalServices moonId st.services))))]⟩ := by
  have hp1 := pass1_spec moonId st.services 0 [] hnd hnb
  have hkeys : (finalServices moonId st.services).map Prod.fst =
      st.services.map Prod.fst := map_fst_reassign moonId st.services
  have hnd' : ((finalServices moonId st.services).map Prod.fst).Nodup := by
    rw [hkeys]; exact hnd
  have hnb' : noBadRecords (finalServices moonId st.services) = true :=
    noBad_reassign moonId st.services hnb
  have hp2 := pass2_spec moonId now (finalServices moonId st.services) hnd' hnb'
  rw [hkeys] at hp2
  simp only [runTool, hres]
  rw [hp1]
  simp only [finalServices] at hp2 ⊢
  simp only [hp2]
  simp [servicesListKey]

theorem entryIdOf_deriveEntry (s moonId : String) (now : Int)
    (fields : List (String × Json)) :
    entryIdOf (deriveEntry s moonId now fields) = some (.str s) := rfl

theorem entryOwnerOf_deriveEntry (s moonId : String) (now : Int)
    (fields : List (String × Json)) :
    entryOwnerOf (deriveEntry s moonId now fields) = some (.str moonId) := rfl

theorem mem_cachedEntries (moonId : String) (now : Int) :
    ∀ (h : List (String × RawValue)) (e : Json), e ∈ cachedEntries moonId now h →
      ∃ s r fields, (s, r) ∈ h ∧ parseJson r = some (.obj fields) ∧
        assocGet fields "nestId" = some (.str moonId) ∧
        e = deriveEntry s moonId now fields := by
  intro h
  induction h with
  | nil => intro e he; simp [cachedEntries] at he
  | cons p t ih =>
    obtain ⟨sid, raw⟩ := p
    intro e he
    simp only [cachedEntries, List.filterMap_cons] at he
    cases hpj : parseJson raw with
    | none =>
      rw [hpj] at he
      obtain ⟨s, r, fields, hm, h1, h2, h3⟩ := ih e he
      exact ⟨s, r, fields, List.mem_cons_of_mem _ hm, h1, h2, h3⟩
    | some j =>
      cases j with
      | obj fields =>
        rw [hpj] at he
        by_cases hq : assocGet fields "nestId" = some (Json.str moonId)
        · simp only [if_pos hq] at he
          rcases List.mem_cons.mp he with heq | ht
          · exact ⟨sid, raw, fields, List.mem_cons_self _ _, hpj, hq, heq⟩
          · obtain ⟨s, r, fields', hm, h1, h2, h3⟩ := ih e ht
            exact ⟨s, r, fields', List.mem_cons_of_mem _ hm, h1, h2, h3⟩
        · simp only [if_neg hq] at he
          obtain ⟨s, r, fields', hm, h1, h2, h3⟩ := ih e he
          exact ⟨s, r, fields', List.mem_cons_of_mem _ hm, h1, h2, h3⟩
      | null =>
        rw [hpj] at he
        obtain ⟨s, r, fields, hm, h1, h2, h3⟩ := ih e he
        exact ⟨s, r, fields, List.mem_cons_of_mem _ hm, h1, h2, h3⟩
      | bool b =>
        rw [hpj] at he
        obtain ⟨s, r, fields, hm, h1, h2, h3⟩ := ih e he
        exact ⟨s, r, fields, List.mem_cons_of_mem _ hm, h1, h2, h3⟩
      | num n =>
        rw [hpj] at he
        obtain ⟨s, r, fields, hm, h1, h2, h3⟩ := ih e he
        exact ⟨s, r, fields, List.mem_cons_of_mem _ hm, h1, h2, h3⟩
      | str s' =>
        rw [hpj] at he
        obtain ⟨s, r, fields, hm, h1, h2, h3⟩ := ih e he
        exact ⟨s, r, fields, List.mem_cons_of_mem _ hm, h1, h2, h3⟩
      | arr xs =>
        rw [hpj] at he
        obtain ⟨s, r, fields, hm, h1, h2, h3⟩ := ih e he
        exact ⟨s, r, fields, List.mem_cons_of_mem _ hm, h1, h2, h3⟩

theorem cachedEntries_ids_nodup (moonId : String) (now : Int) :
    ∀ (h : List (String × RawValue)), (h.map Prod.fst).Nodup →
      ((cachedEntries moonId now h).map entryIdOf).Nodup := by
  intro h
  induction h with
  | nil => intro _; simp [cachedEntries]
  | cons p t ih =>
    obtain ⟨sid, raw⟩ := p
    intro hnd
    simp only [List.map_cons, List.nodup_cons] at hnd
    simp only [cachedEntries, List.filterMap_cons]
    have hrec := ih hnd.2
    have hno : some (Json.str sid) ∉
        (cachedEntries moonId now t).map entryIdOf := by
      intro hmem
      obtain ⟨x, hx, hxe⟩ := List.mem_map.mp hmem
      obtain ⟨s, r, fields, hm, _, _, h3⟩ := mem_cachedEntries moonId now t x hx
      rw [h3, entryIdOf_deriveEntry] at hxe
      have hs : s = sid := by
        have := Option.some.inj hxe
        exact Json.str.inj this
      exact hnd.1 (hs ▸ List.mem_map.mpr ⟨(s, r), hm, rfl⟩)
    cases hpj : parseJson raw with
    | none => exact hrec
    | some j =>
      cases j with
      | obj fields =>
        by_cases hq : assocGet fields "nestId" = some (Json.str moonId)
        · simp only [if_pos hq, List.map_cons, List.nodup_cons]
          exact ⟨by rw [entryIdOf_deriveEntry]; exact hno, hrec⟩
        · simp only [if_neg hq]
          exact hrec
      | null => exact hrec
      | bool b => exact hrec
      | num n => exact hrec
      | str s => exact hrec
      | arr xs => exact hrec

theorem assoc_mem_unique {α : Type} (l : List (String × α)) (k : String) (a b : α)
    (hnd : (l.map Prod.fst).Nodup) (ha : (k, a) ∈ l) (hb : (k, b) ∈ l) :
    a = b := by
  have h1 := assocGet_of_mem_nodup l k a hnd ha
  have h2 := assocGet_of_mem_nodup l k b hnd hb
  rw [h1] at h2
  exact Option.some.inj h2

theorem assocGet_finalServices (moonId : String) (h : List (String × RawValue))
    (sid : String) :
    assocGet (finalServices moonId h) sid =
      (assocGet h sid).map (reassignRaw moonId) :=
  assocGet_map_value (fun _ v => reassignRaw moonId v) h sid

@[simp]
theorem isHsetFor_hsetServices (sid f : String) (v : RawValue) :
    isHsetFor sid (.hsetServices f v) = decide (f = sid) := rfl

@[simp]
theorem isHsetFor_setKey (sid k : String) (v : RawValue) :
    isHsetFor sid (.setKey k v) = false := rfl

@[simp]
theorem isSetKeyWrite_hsetServices (f : String) (v : RawValue) :
    isSetKeyWrite (.hsetServices f v) = false := rfl

@[simp]
theorem isSetKeyWrite_setKey (k : String) (v : RawValue) :
    isSetKeyWrite (.setKey k v) = true := rfl

theorem hsetLog_cons (moonId : String) (p : String × RawValue)
    (t : List (String × RawValue)) :
    hsetLog moonId (p :: t) =
      if parsesToObj p.2 then
        WriteOp.hsetServices p.1 (reassignRaw moonId p.2) :: hsetLog moonId t
      else hsetLog moonId t := by
  by_cases hpo : parsesToObj p.2 <;> simp [hsetLog, List.filterMap_cons, hpo]

theorem hsetLog_filter_nil (moonId sid : String) :
    ∀ (t : List (String × RawValue)), sid ∉ t.map Prod.fst →
      (hsetLog moonId t).filter (fun w => isHsetFor sid w) = [] := by
  intro t
  induction t with
  | nil => intro _; rfl
  | cons p t ih =>
    obtain ⟨k, r⟩ := p
    intro hnotin
    simp only [List.map_cons, List.mem_cons, not_or] at hnotin
    have hk : ¬(k = sid) := fun he => hnotin.1 he.symm
    rw [hsetLog_cons]
    by_cases hpo : parsesToObj r
    · rw [if_pos hpo, List.filter_cons,
        if_neg (by simpa using hk)]
      exact ih hnotin.2
    · rw [if_neg hpo]
      exact ih hnotin.2

theorem hsetLog_filter_count (moonId sid : String) :
    ∀ (h : List (String × RawValue)), (h.map Prod.fst).Nodup →
      ∀ raw, (sid, raw) ∈ h →
      ((hsetLog moonId h).filter (fun w => isHsetFor sid w)).length =
        if parsesToObj raw then 1 else 0 := by
  intro h
  induction h with
  | nil => intro _ raw hmem; simp at hmem
  | cons p t ih =>
    obtain ⟨k, r⟩ := p
    intro hnd raw hmem
    simp only [List.map_cons, List.nodup_cons] at hnd
    rcases List.mem_cons.mp hmem with heq | ht
    · injection heq with hk hr
      subst hk
      subst hr
      rw [hsetLog_cons]
      have hnil := hsetLog_filter_nil moonId sid t hnd.1
      by_cases hpo : parsesToObj raw
      · rw [if_pos hpo, if_pos hpo, List.filter_cons,
          if_pos (by simp), hnil]
        rfl
      · rw [if_neg hpo, if_neg hpo, hnil]
        rfl
    · have hk : ¬(k = sid) := by
        intro he
        exact hnd.1 (he ▸ List.mem_map.mpr ⟨(sid, raw), ht, he ▸ rfl⟩)
      rw [hsetLog_cons]
      by_cases hpo : parsesToObj r
      · rw [if_pos hpo, List.filter_cons,
          if_neg (by simpa using hk)]
        exact ih hnd.2 raw ht
      · rw [if_neg hpo]
        exact ih hnd.2 raw ht

theorem hsetLog_filter_setKey (moonId : String) :
    ∀ (h : List (String × RawValue)),
      (hsetLog moonId h).filter (fun w => isSetKeyWrite w) = [] := by
  intro h
  induction h with
  | nil => rfl
  | cons p t ih =>
    rw [hsetLog_cons]
    by_cases hpo : parsesToObj p.2
    · rw [if_pos hpo, List.filter_cons, if_neg (by simp)]
      exact ih
    · rw [if_neg hpo]
      exact ih

theorem finalServices_stable (moonId : String) (h : List (String × RawValue)) :
    finalServices moonId (finalServices moonId h) = finalServices moonId h := by
  induction h with
  | nil => rfl
  | cons p t ih =>
    simp only [finalServices, List.map_cons] at *
    rw [reassignRaw_stable, ih]

theorem assocSet_twice {α : Type} (l : List (String × α)) (k : String) (v : α) :
    assocSet (assocSet l k v) k v = assocSet l k v :=
  assocSet_eq_self _ _ _ (assocGet_assocSet_self l k v)

/-- C3: when the target-account lookup returns empty or the store's
missing sentinel, the tool exits with code 1 before performing any store
write: the run result is exactly `notFound` with the original store and an
empty write trace, so no service record and no cached list is written. -/
theorem C3_not_found_leaves_store_unmodified (now : Int) (st : Store)
    (hres : resolveNest st.nestEmailRaw = none) :
    runTool now st = ⟨.notFound, st, 0, []⟩ ∧
    exitCode (runTool now st).exit = 1 := by
  constructor
  · simp [runTool, hres]
  · simp [runTool, hres, exitCode]

theorem C3_not_found_leaves_store_unmodified_witness :
    resolveNest nilLookupStore.nestEmailRaw = none ∧
    runTool 3 nilLookupStore = ⟨.notFound, nilLookupStore, 0, []⟩ ∧
    exitCode (runTool 3 nilLookupStore).exit = 1 :=
  ⟨by decide,
   C3_not_found_leaves_store_unmodified 3 nilLookupStore (by decide)⟩

/-- C10: when some service id's stored value parses as JSON but not as a
JSON object, the run aborts with an uncaught error (only
`json.JSONDecodeError` is caught per record): the exit status is `crashed`
(process exit code 1) and in particular the cached-list `set` write is
never reached. -/
theorem C10_non_object_value_aborts (now : Int) (st : Store)
    (moonId sid : String) (raw : RawValue)
    (hres : resolveNest st.nestEmailRaw = some moonId)
    (hget : assocGet st.services sid = some raw)
    (hbad : badRaw raw = true) :
    (runTool now st).exit = .crashed ∧
    exitCode (runTool now st).exit = 1 ∧
    ∀ w ∈ (runTool now st).writes, isSetKeyWrite w = false := by
  have hmem : sid ∈ st.services.map Prod.fst := mem_keys_of_assocGet _ _ _ hget
  have hok : (pass1Go moonId (st.services.map Prod.fst) st.services 0 []).ok
      = false :=
    pass1_crash moonId sid _ _ 0 [] hmem ⟨raw, hget, hbad⟩
  have hrun : runTool now st =
      ⟨.crashed,
       { st with services :=
          (pass1Go moonId (st.services.map Prod.fst) st.services 0 []).services },
       (pass1Go moonId (st.services.map Prod.fst) st.services 0 []).count,
       (pass1Go moonId (st.services.map Prod.fst) st.services 0 []).log⟩ := by
    simp [runTool, hres, hok]
  rw [hrun]
  refine ⟨rfl, rfl, ?_⟩
  intro w hw
  rcases pass1_log_mem moonId (st.services.map Prod.fst) st.services 0 [] w hw with
    hin | hns
  · simp at hin
  · exact hns

theorem C10_non_object_value_aborts_witness :
    resolveNest badRecordStore.nestEmailRaw = some "m" ∧
    assocGet badRecordStore.services "a" = some (.parsed (.arr [.num 1])) ∧
    badRaw (.parsed (.arr [.num 1])) = true ∧
    ((runTool 2 badRecordStore).exit = .crashed ∧
     exitCode (runTool 2 badRecordStore).exit = 1 ∧
     ∀ w ∈ (runTool 2 badRecordStore).writes, isSetKeyWrite w = false) :=
  ⟨by decide, by decide, by decide,
   C10_non_object_value_aborts 2 badRecordStore "m" "a" (.parsed (.arr [.num 1]))
     (by decide) (by decide) (by decide)⟩

/-- C6: the reported reassigned count equals the number of successfully
parsed service records whose previous `nestId` (spec: `ownerId`) differed
from the target account id. (The witness instantiates the spec's scenario:
`svc-a` owned by `acct-old` and `svc-b` already owned by `acct-target`
give count 1, both records end up owned by the target, and the cached
list has exactly two entries.) -/
theorem C6_reassigned_count_spec (now : Int) (st : Store) (moonId : String)
    (hres : resolveNest st.nestEmailRaw = some moonId)
    (hnd : (st.services.map Prod.fst).Nodup)
    (hnb : noBadRecords st.services = true) :
    (runTool now st).reassignedCount =
      st.services.countP (fun p => changedRaw moonId p.2) := by
  rw [runTool_spec now st moonId hres hnd hnb]

theorem C6_reassigned_count_spec_witness :
    resolveNest scenarioStore.nestEmailRaw = some "acct-target" ∧
    (scenarioStore.services.map Prod.fst).Nodup ∧
    noBadRecords scenarioStore.services = true ∧
    (runTool 9 scenarioStore).reassignedCount =
      scenarioStore.services.countP (fun p => changedRaw "acct-target" p.2) ∧
    (runTool 9 scenarioStore).reassignedCount = 1 ∧
    assocGet (runTool 9 scenarioStore).store.services "svc-a" =
      some (.parsed (.obj [("nestId", .str "acct-target")])) ∧
    assocGet (runTool 9 scenarioStore).store.services "svc-b" =
      some (.parsed (.obj [("nestId", .str "acct-target")])) ∧
    cachedListLength (runTool 9 scenarioStore).store
      "nest:acct-target:services" = some 2 :=
  ⟨by decide, by decide, by decide,
   C6_reassigned_count_spec 9 scenarioStore "acct-target"
     (by decide) (by decide) (by decide),
   by decide, by decide, by decide, by decide⟩

/-- C2: every service record that parses as a JSON object ends the run
with its `nestId` (spec: `ownerId`) equal to the resolved target id: the
full object is re-serialized with `nestId` set to the target —
unconditionally, even when it was already equal — and written back to the
same hash field, with exactly one `hset` write for that field in the whole
run. -/
theorem C2_sets_owner_and_writes_once (now : Int) (st : Store)
    (moonId sid : String) (raw : RawValue) (fields : List (String × Json))
    (hres : resolveNest st.nestEmailRaw = some moonId)
    (hnd : (st.services.map Prod.fst).Nodup)
    (hnb : noBadRecords st.services = true)
    (hmem : (sid, raw) ∈ st.services)
    (hpj : parseJson raw = some (.obj fields)) :
    assocGet (runTool now st).store.services sid =
      some (RawValue.parsed (.obj (assocSet fields "nestId" (.str moonId)))) ∧
    assocGet (assocSet fields "nestId" (.str moonId)) "nestId" =
      some (.str moonId) ∧
    ((runTool now st).writes.filter (fun w => isHsetFor sid w)).length = 1 := by
  simp only [runTool_spec now st moonId hres hnd hnb]
  refine ⟨?_, assocGet_assocSet_self _ _ _, ?_⟩
  · rw [assocGet_finalServices, assocGet_of_mem_nodup _ _ _ hnd hmem]
    simp [reassignRaw, hpj]
  · have hpo : parsesToObj raw = true := by simp [parsesToObj, hpj]
    rw [List.filter_append]
    have h1 : List.filter (fun w => isHsetFor sid w)
        [WriteOp.setKey (servicesListKey moonId)
          (RawValue.parsed (.arr (cachedEntries moonId now
            (finalServices moonId st.services))))] = [] := by
      simp
    rw [h1, List.append_nil,
        hsetLog_filter_count moonId sid st.services hnd raw hmem, if_pos hpo]

theorem C2_sets_owner_and_writes_once_witness :
    resolveNest oneRecordStore.nestEmailRaw = some "m" ∧
    (oneRecordStore.services.map Prod.fst).Nodup ∧
    noBadRecords oneRecordStore.services = true ∧
    ("svc", RawValue.parsed (.obj [("nestId", .str "old")])) ∈
      oneRecordStore.services ∧
    parseJson (RawValue.parsed (.obj [("nestId", .str "old")])) =
      some (.obj [("nestId", .str "old")]) ∧
    (assocGet (runTool 4 oneRecordStore).store.services "svc" =
      some (RawValue.parsed
        (.obj (assocSet [("nestId", .str "old")] "nestId" (.str "m")))) ∧
     assocGet (assocSet [("nestId", Json.str "old")] "nestId" (.str "m"))
       "nestId" = some (.str "m") ∧
     ((runTool 4 oneRecordStore).writes.filter
       (fun w => isHsetFor "svc" w)).length = 1) :=
  ⟨by decide, by decide, by decide, by decide, by decide,
   C2_sets_owner_and_writes_once 4 oneRecordStore "m" "svc"
     (RawValue.parsed (.obj [("nestId", .str "old")]))
     [("nestId", .str "old")]
     (by decide) (by decide) (by decide) (by decide) (by decide)⟩

/-- C7: for every record that parses as a JSON object, the value written
back to its hash field preserves every field other than `nestId`
(spec: `ownerId`) — lookups at all other keys are unchanged; only the
`nestId` field is modified. -/
theorem C7_other_fields_preserved (now : Int) (st : Store)
    (moonId sid : String) (raw : RawValue) (fields : List (String × Json))
    (hres : resolveNest st.nestEmailRaw = some moonId)
    (hnd : (st.services.map Prod.fst).Nodup)
    (hnb : noBadRecords st.services = true)
    (hmem : (sid, raw) ∈ st.services)
    (hpj : parseJson raw = some (.obj fields)) :
    assocGet (runTool now st).store.services sid =
      some (RawValue.parsed (.obj (assocSet fields "nestId" (.str moonId)))) ∧
    ∀ k, k ≠ "nestId" →
      assocGet (assocSet fields "nestId" (.str moonId)) k =
        assocGet fields k := by
  simp only [runTool_spec now st moonId hres hnd hnb]
  refine ⟨?_, fun k hk => assocGet_assocSet_ne fields "nestId" k _ hk⟩
  rw [assocGet_finalServices, assocGet_of_mem_nodup _ _ _ hnd hmem]
  simp [reassignRaw, hpj]

theorem C7_other_fields_preserved_witness :
    resolveNest mixedStore.nestEmailRaw = some "m" ∧
    (mixedStore.services.map Prod.fst).Nodup ∧
    noBadRecords mixedStore.services = true ∧
    ("good", RawValue.parsed
      (.obj [("nestId", .str "x"), ("name", .str "G")])) ∈
      mixedStore.services ∧
    parseJson (RawValue.parsed (.obj [("nestId", .str "x"), ("name", .str "G")]))
      = some (.obj [("nestId", .str "x"), ("name", .str "G")]) ∧
    (assocGet (runTool 6 mixedStore).store.services "good" =
      some (RawValue.parsed (.obj (assocSet
        [("nestId", .str "x"), ("name", .str "G")] "nestId" (.str "m")))) ∧
     ∀ k, k ≠ "nestId" →
       assocGet (assocSet [("nestId", Json.str "x"), ("name", Json.str "G")]
         "nestId" (.str "m")) k =
       assocGet [("nestId", Json.str "x"), ("name", Json.str "G")] k) :=
  ⟨by decide, by decide, by decide, by decide, by decide,
   C7_other_fields_preserved 6 mixedStore "m" "good"
     (RawValue.parsed (.obj [("nestId", .str "x"), ("name", .str "G")]))
     [("nestId", .str "x"), ("name", .str "G")]
     (by decide) (by decide) (by decide) (by decide) (by decide)⟩

/-- C1: after a successful run the value stored under
`nest:<target>:services` (spec: `account:<target-id>:services`) is exactly
the JSON array of derived entries of the final services hash — one entry
per record whose `nestId` equals the target, with pairwise-distinct `id`
fields (no duplicates) and every entry owned by the target (no entries for
other owners) — written as a full replacement independent of the key's
prior contents, with exactly one `set` write in the whole run (also when
zero records qualify). -/
theorem C1_cached_list_exact_replacement (now : Int) (st : Store)
    (moonId : String)
    (hres : resolveNest st.nestEmailRaw = some moonId)
    (hnd : (st.services.map Prod.fst).Nodup)
    (hnb : noBadRecords st.services = true) :
    (runTool now st).exit = .success ∧
    assocGet (runTool now st).store.strings (servicesListKey moonId) =
      some (RawValue.parsed (.arr (cachedEntries moonId now
        (runTool now st).store.services))) ∧
    ((cachedEntries moonId now
      (runTool now st).store.services).map entryIdOf).Nodup ∧
    (∀ e ∈ cachedEntries moonId now (runTool now st).store.services,
      entryOwnerOf e = some (.str moonId)) ∧
    (runTool now st).writes.filter (fun w => isSetKeyWrite w) =
      [.setKey (servicesListKey moonId)
        (RawValue.parsed (.arr (cachedEntries moonId now
          (runTool now st).store.services)))] := by
  simp only [runTool_spec now st moonId hres hnd hnb]
  refine ⟨trivial, assocGet_assocSet_self _ _ _, ?_, ?_, ?_⟩
  · refine cachedEntries_ids_nodup moonId now _ ?_
    rw [map_fst_finalServices]
    exact hnd
  · intro e he
    obtain ⟨s, r, fields, _, _, _, h3⟩ := mem_cachedEntries moonId now _ e he
    rw [h3, entryOwnerOf_deriveEntry]
  · rw [List.filter_append, hsetLog_filter_setKey]
    simp

theorem C1_cached_list_exact_replacement_witness :
    resolveNest scenarioStore.nestEmailRaw = some "acct-target" ∧
    (scenarioStore.services.map Prod.fst).Nodup ∧
    noBadRecords scenarioStore.services = true ∧
    ((runTool 11 scenarioStore).exit = .success ∧
     assocGet (runTool 11 scenarioStore).store.strings
       (servicesListKey "acct-target") =
       some (RawValue.parsed (.arr (cachedEntries "acct-target" 11
         (runTool 11 scenarioStore).store.services))) ∧
     ((cachedEntries "acct-target" 11
       (runTool 11 scenarioStore).store.services).map entryIdOf).Nodup ∧
     (∀ e ∈ cachedEntries "acct-target" 11
       (runTool 11 scenarioStore).store.services,
       entryOwnerOf e = some (.str "acct-target")) ∧
     (runTool 11 scenarioStore).writes.filter (fun w => isSetKeyWrite w) =
       [.setKey (servicesListKey "acct-target")
         (RawValue.parsed (.arr (cachedEntries "acct-target" 11
           (runTool 11 scenarioStore).store.services)))]) :=
  ⟨by decide, by decide, by decide,
   C1_cached_list_exact_replacement 11 scenarioStore "acct-target"
     (by decide) (by decide) (by decide)⟩

/-- C4: a record whose stored value fails to parse as JSON is skipped in
both passes — the run still succeeds with exit code 0, the record's hash
field is left exactly as it was with zero `hset` writes for it, no derived
entry with its id appears in the rebuilt cached list, and every other
record that does parse as an object is still reassigned normally. -/
theorem C4_malformed_record_skipped (now : Int) (st : Store)
    (moonId sid : String) (raw : RawValue)
    (hres : resolveNest st.nestEmailRaw = some moonId)
    (hnd : (st.services.map Prod.fst).Nodup)
    (hnb : noBadRecords st.services = true)
    (hmem : (sid, raw) ∈ st.services)
    (hpj : parseJson raw = none) :
    (runTool now st).exit = .success ∧
    exitCode (runTool now st).exit = 0 ∧
    assocGet (runTool now st).store.services sid = some raw ∧
    ((runTool now st).writes.filter (fun w => isHsetFor sid w)).length = 0 ∧
    (∀ e ∈ cachedEntries moonId now (runTool now st).store.services,
      entryIdOf e ≠ some (.str sid)) ∧
    (∀ sid' raw' fields, (sid', raw') ∈ st.services →
      parseJson raw' = some (.obj fields) →
      assocGet (runTool now st).store.services sid' =
        some (RawValue.parsed (.obj (assocSet fields "nestId" (.str moonId))))) := by
  have hndf : ((finalServices moonId st.services).map Prod.fst).Nodup := by
    rw [map_fst_finalServices]
    exact hnd
  have hre : reassignRaw moonId raw = raw := by simp [reassignRaw, hpj]
  simp only [runTool_spec now st moonId hres hnd hnb]
  refine ⟨trivial, rfl, ?_, ?_, ?_, ?_⟩
  · rw [assocGet_finalServices, assocGet_of_mem_nodup _ _ _ hnd hmem]
    simp [hre]
  · have hpo : parsesToObj raw = false := by simp [parsesToObj, hpj]
    rw [List.filter_append]
    have h1 : List.filter (fun w => isHsetFor sid w)
        [WriteOp.setKey (servicesListKey moonId)
          (RawValue.parsed (.arr (cachedEntries moonId now
            (finalServices moonId st.services))))] = [] := by
      simp
    rw [h1, List.append_nil,
        hsetLog_filter_count moonId sid st.services hnd raw hmem,
        if_neg (by rw [hpo]; exact Bool.false_ne_true)]
  · intro e he heq
    obtain ⟨s, r, fields, hm, h1, _, h3⟩ := mem_cachedEntries moonId now _ e he
    rw [h3, entryIdOf_deriveEntry] at heq
    have hs : s = sid := Json.str.inj (Option.some.inj heq)
    subst hs
    have hmemf : (s, raw) ∈ finalServices moonId st.services := by
      have := List.mem_map.mpr
        (⟨(s, raw), hmem, rfl⟩ :
          ∃ x ∈ st.services, (x.1, reassignRaw moonId x.2) = (s, reassignRaw moonId raw))
      rw [hre] at this
      exact this
    have hrr : r = raw := assoc_mem_unique _ s r raw hndf hm hmemf
    rw [hrr, hpj] at h1
    exact Option.noConfusion h1
  · intro sid' raw' fields hm' hpj'
    rw [assocGet_finalServices, assocGet_of_mem_nodup _ _ _ hnd hm']
    simp [reassignRaw, hpj']

theorem C4_malformed_record_skipped_witness :
    resolveNest mixedStore.nestEmailRaw = some "m" ∧
    (mixedStore.services.map Prod.fst).Nodup ∧
    noBadRecords mixedStore.services = true ∧
    ("bad", RawValue.malformed "not json") ∈ mixedStore.services ∧
    parseJson (RawValue.malformed "not json") = none ∧
    ((runTool 8 mixedStore).exit = .success ∧
     exitCode (runTool 8 mixedStore).exit = 0 ∧
     assocGet (runTool 8 mixedStore).store.services "bad" =
       some (RawValue.malformed "not json") ∧
     ((runTool 8 mixedStore).writes.filter
       (fun w => isHsetFor "bad" w)).length = 0 ∧
     (∀ e ∈ cachedEntries "m" 8 (runTool 8 mixedStore).store.services,
       entryIdOf e ≠ some (.str "bad")) ∧
     (∀ sid' raw' fields, (sid', raw') ∈ mixedStore.services →
       parseJson raw' = some (.obj fields) →
       assocGet (runTool 8 mixedStore).store.services sid' =
         some (RawValue.parsed (.obj (assocSet fields "nestId" (.str "m")))))) :=
  ⟨by decide, by decide, by decide, by decide, by decide,
   C4_malformed_record_skipped 8 mixedStore "m" "bad"
     (RawValue.malformed "not json")
     (by decide) (by decide) (by decide) (by decide) (by decide)⟩

/-- C5 (counterexample): the run is not unconditionally idempotent. The
derived cached-list entries embed the wall clock (`updatedAt`, and
`createdAt` when absent from the record), so running the tool a second
time with a later clock rewrites the cached list with different
timestamps: from `oneRecordStore`, a run at clock 0 followed by a run at
clock 1 leaves a different store than the single run at clock 0. -/
theorem C5_not_idempotent_across_clocks :
    (runTool 1 (runTool 0 oneRecordStore).store).store ≠
      (runTool 0 oneRecordStore).store := by decide

/-- C5 (amended): running the tool twice yields the same final store as
running it once provided both runs observe the same clock value; and
regardless of the second run's clock, the service records in the hash are
identical after the first and second run (only the cached list's timestamp
fields can differ). -/
theorem C5_idempotent_with_fixed_clock (now : Int) (st : Store)
    (moonId : String)
    (hres : resolveNest st.nestEmailRaw = some moonId)
    (hnd : (st.services.map Prod.fst).Nodup)
    (hnb : noBadRecords st.services = true) :
    (runTool now (runTool now st).store).store = (runTool now st).store ∧
    (∀ now' : Int, (runTool now' (runTool now st).store).store.services =
      (runTool now st).store.services) := by
  have hspec := runTool_spec now st moonId hres hnd hnb
  have hservices : (runTool now st).store.services =
      finalServices moonId st.services := by rw [hspec]
  have hemail : (runTool now st).store.nestEmailRaw = st.nestEmailRaw := by
    rw [hspec]
  have hstrings : (runTool now st).store.strings =
      assocSet st.strings (servicesListKey moonId)
        (RawValue.parsed (.arr (cachedEntries moonId now
          (finalServices moonId st.services)))) := by
    rw [hspec]
  have hres1 : resolveNest (runTool now st).store.nestEmailRaw = some moonId := by
    rw [hemail]; exact hres
  have hnd1 : ((runTool now st).store.services.map Prod.fst).Nodup := by
    rw [hservices, map_fst_finalServices]
    exact hnd
  have hnb1 : noBadRecords (runTool now st).store.services = true := by
    rw [hservices]
    exact noBad_reassign moonId _ hnb
  have hstable : finalServices moonId (runTool now st).store.services =
      (runTool now st).store.services := by
    rw [hservices]
    exact finalServices_stable moonId st.services
  constructor
  · have hspec2 := runTool_spec now (runTool now st).store moonId hres1 hnd1 hnb1
    simp only [hspec2, hstable]
    rw [hservices, hstrings, assocSet_twice, ← hstrings, ← hservices]
  · intro now'
    have hspec2 := runTool_spec now' (runTool now st).store moonId hres1 hnd1 hnb1
    simp only [hspec2]
    exact hstable

theorem C5_idempotent_with_fixed_clock_witness :
    resolveNest oneRecordStore.nestEmailRaw = some "m" ∧
    (oneRecordStore.services.map Prod.fst).Nodup ∧
    noBadRecords oneRecordStore.services = true ∧
    ((runTool 0 (runTool 0 oneRecordStore).store).store =
      (runTool 0 oneRecordStore).store ∧
     (∀ now' : Int, (runTool now' (runTool 0 oneRecordStore).store).store.services =
       (runTool 0 oneRecordStore).store.services)) :=
  ⟨by decide, by decide, by decide,
   C5_idempotent_with_fixed_clock 0 oneRecordStore "m"
     (by decide) (by decide) (by decide)⟩

/-- C8: the derived cached-list entry applies the documented defaults when
optional fields are absent — `interval` 60, `monitoring` the object with
`regions` `["eu-central-1","eu-west-1","us-east-1"]`, `strategy`
`"round-robin"`, `minRegions` 1, `maxRegions` 3, and `isActive` taken from
the record's `enabled` field defaulting to `true` — while `lastCheck` is
passed through unchanged (absent becomes JSON `null`, as Python's
`d.get('lastCheck')` yields `None`). -/
theorem C8_derived_entry_defaults (sid moonId : String) (now : Int)
    (fields : List (String × Json)) :
    (assocGet fields "interval" = none →
      assocGet (deriveFields sid moonId now fields) "interval" =
        some (.num 60)) ∧
    (assocGet fields "monitoring" = none →
      assocGet (deriveFields sid moonId now fields) "monitoring" =
        some (Json.obj
          [("regions", .arr [.str "eu-central-1", .str "eu-west-1",
            .str "us-east-1"]),
           ("strategy", .str "round-robin"),
           ("minRegions", .num 1),
           ("maxRegions", .num 3)])) ∧
    (assocGet fields "enabled" = none →
      assocGet (deriveFields sid moonId now fields) "isActive" =
        some (.bool true)) ∧
    (assocGet (deriveFields sid moonId now fields) "lastCheck" =
      some ((assocGet fields "lastCheck").getD .null)) := by
  refine ⟨fun h => ?_, fun h => ?_, fun h => ?_, ?_⟩
  · have e : assocGet (deriveFields sid moonId now fields) "interval" =
        some (assocGetD fields "interval" (.num 60)) := rfl
    rw [e]
    simp [assocGetD, h]
  · have e : assocGet (deriveFields sid moonId now fields) "monitoring" =
        some (assocGetD fields "monitoring" defaultMonitoring) := rfl
    rw [e]
    simp [assocGetD, h, defaultMonitoring]
  · have e : assocGet (deriveFields sid moonId now fields) "isActive" =
        some (assocGetD fields "enabled" (.bool true)) := rfl
    rw [e]
    simp [assocGetD, h]
  · rfl

theorem C8_derived_entry_defaults_witness :
    assocGet [("nestId", Json.str "m")] "interval" = none ∧
    assocGet [("nestId", Json.str "m")] "monitoring" = none ∧
    assocGet [("nestId", Json.str "m")] "enabled" = none ∧
    (assocGet (deriveFields "svc" "m" 4 [("nestId", .str "m")]) "interval" =
      some (.num 60) ∧
     assocGet (deriveFields "svc" "m" 4 [("nestId", .str "m")]) "monitoring" =
      some (Json.obj
        [("regions", .arr [.str "eu-central-1", .str "eu-west-1",
          .str "us-east-1"]),
         ("strategy", .str "round-robin"),
         ("minRegions", .num 1),
         ("maxRegions", .num 3)]) ∧
     assocGet (deriveFields "svc" "m" 4 [("nestId", .str "m")]) "isActive" =
      some (.bool true) ∧
     assocGet (deriveFields "svc" "m" 4 [("nestId", .str "m")]) "lastCheck" =
      some ((assocGet [("nestId", Json.str "m")] "lastCheck").getD .null)) :=
  ⟨by decide, by decide, by decide,
   (C8_derived_entry_defaults "svc" "m" 4 [("nestId", .str "m")]).1 (by decide),
   (C8_derived_entry_defaults "svc" "m" 4 [("nestId", .str "m")]).2.1 (by decide),
   (C8_derived_entry_defaults "svc" "m" 4 [("nestId", .str "m")]).2.2.1 (by decide),
   (C8_derived_entry_defaults "svc" "m" 4 [("nestId", .str "m")]).2.2.2⟩

/-- C9 (counterexample): the claim that a missing `name` defaults to
`"Unknown"` in the derived cached-list entry is false on the code. For a
record with no `name` field, the cached list written by a full run holds
an entry whose `name` is the empty string, not `"Unknown"` (source line 95
uses `.get('name', '')`). -/
theorem C9_derived_name_default_counterexample :
    assocGet (runTool 0
        (Store.mk "\"m\"" [("svc", .parsed (.obj []))] [])).store.strings
      "nest:m:services" =
      some (.parsed (.arr [.obj (deriveFields "svc" "m" 0
        [("nestId", .str "m")])])) ∧
    assocGet (deriveFields "svc" "m" 0 [("nestId", .str "m")]) "name" =
      some (.str "") ∧
    Json.str "" ≠ Json.str "Unknown" := by decide

/-- C9 (amended): when a service record has no `name` field, `"Unknown"`
is used as its default only in the progress line printed during the
reassignment pass (source line 47), and likewise for a missing `type`;
the derived cached-list entry instead defaults both `name` and `type` to
the empty string (source lines 95-96). -/
theorem C9_unknown_default_display_only (sid moonId : String) (now : Int)
    (fields : List (String × Json))
    (hname : assocGet fields "name" = none)
    (htype : assocGet fields "type" = none) :
    processingLabel fields = (.str "Unknown", .str "Unknown") ∧
    assocGet (deriveFields sid moonId now fields) "name" =
      some (.str "") ∧
    assocGet (deriveFields sid moonId now fields) "type" =
      some (.str "") := by
  refine ⟨?_, ?_, ?_⟩
  · simp [processingLabel, assocGetD, hname, htype]
  · have e : assocGet (deriveFields sid moonId now fields) "name" =
        some (assocGetD fields "name" (.str "")) := rfl
    rw [e]
    simp [assocGetD, hname]
  · have e : assocGet (deriveFields sid moonId now fields) "type" =
        some (assocGetD fields "type" (.str "")) := rfl
    rw [e]
    simp [assocGetD, htype]

theorem C9_unknown_default_display_only_witness :
    assocGet [("nestId", Json.str "m")] "name" = none ∧
    assocGet [("nestId", Json.str "m")] "type" = none ∧
    (processingLabel [("nestId", .str "m")] =
      (.str "Unknown", .str "Unknown") ∧
     assocGet (deriveFields "svc" "m" 7 [("nestId", .str "m")]) "name" =
      some (.str "") ∧
     assocGet (deriveFields "svc" "m" 7 [("nestId", .str "m")]) "type" =
      some (.str "")) :=
  ⟨by decide, by decide,
   C9_unknown_default_display_only "svc" "m" 7 [("nestId", .str "m")]
     (by decide) (by decide)⟩
